import Mathlib

/-!
Verification development for the filterfasta program
(`src/unnamed/part_000`, the MPI production source).

The C program is shallowly embedded: the mapped query file / carry buffer
becomes a `List Char` region, raw `char *` cursors become indices into that
region, and the `long long int` counters become `Nat` (they are non-negative
in every reachable state) or `Int` where the C value can go negative.
`fwrite` is modelled as an ideal writer appending the requested bytes and
reporting the requested count; a short write only lowers the reported count,
so every upper bound proved here also holds for short writes.  Bytes are
assumed ASCII (the program's own documentation requires ASCII FASTA input).
Double-precision `ceil`/`floor` in the partitioner are exact for file sizes
below 2^53 and are modelled by exact natural division.
-/

namespace FilterFasta

/-- The SOH byte (0x01) that delimits concatenated alternative headers. -/
def SOH : Char := Char.ofNat 1

/-- C `INT_MAX`, the sentinel for the default "write all annot fields" mode. -/
def cIntMax : Int := 2147483647

/-- C `INT_MIN + 1`, the sentinel for "write all annot fields, no body". -/
def cIntMinSucc : Int := -2147483647

/-- Command line options consumed by the extraction core (`args_t`). -/
structure Args where
  seqLen : List Nat
  rseqLen : List (Nat × Nat)
  seqCnt : Nat
  bytesLimit : Nat
  annotCnt : Int
  pipeMode : Nat
  searchMode : Nat

/-- The hit-list index (`hits_t`): stored hit IDs and the mode flags that
`main` copies from `args` before the scan. -/
structure Hits where
  hitList : List (List Char)
  pipeMode : Nat
  searchMode : Nat

/-- Everything `extractQueries` reads besides the mapped region and the
mutable scan state: the options, the hit index and `mpi->procCnt`. -/
structure Cfg where
  args : Args
  hits : Hits
  procCnt : Nat

/-- Forward scan of `getAnnot`'s two loops: the least index `p' ∈ [p, e)`
whose byte is `t`; `none` when the sentinel `e` (`iomap->fMap` resp.
`query->fbuf`) is reached first, which the C code reports as an error. -/
def scanForAux (region : List Char) (t : Char) : Nat → Nat → Option Nat
  | 0, _ => none
  | gas + 1, p => if region.getD p 'A' = t then some p else scanForAux region t gas (p + 1)

/-- Entry point of the forward scans: the loop runs at most `e - p` times
before `p` reaches the sentinel. -/
def scanFor (region : List Char) (e : Nat) (t : Char) (p : Nat) : Option Nat :=
  scanForAux region t (e - p) p

/-- `getAnnot`: from the cursor `query->fsq`, find the next record start `>`
and then the end of the header line; both scans stop with an error at the
sentinel index `e`. -/
def getAnnot (region : List Char) (e : Nat) (cursor : Nat) : Option (Nat × Nat) :=
  match scanFor region e '>' cursor with
  | none => none
  | some iaq =>
    match scanFor region e '\n' (iaq + 1) with
    | none => none
    | some faq => some (iaq, faq)

/-- The body walk of `getSequence`: newlines are skipped without being
counted, a `>` ends the record at the previous byte, and reaching the
sentinel `e` ends it there.  Returns `(fsq, seqSz)`. -/
def seqScanAux (region : List Char) : Nat → Nat → Nat → Nat × Nat
  | 0, p, acc => (p, acc)
  | gas + 1, p, acc =>
    if region.getD p 'A' = '\n' then seqScanAux region gas (p + 1) acc
    else if region.getD p 'A' = '>' then (p - 1, acc)
    else seqScanAux region gas (p + 1) (acc + 1)

/-- Entry point of the body walk: the loop runs at most `e - p` times before
`p` reaches the sentinel, at which point `(p, acc)` is returned. -/
def seqScan (region : List Char) (e : Nat) (p : Nat) (acc : Nat) : Nat × Nat :=
  seqScanAux region (e - p) p acc

/-- `getSequence`: the body starts right after the header newline; a logical
sequence length of zero is the "no sequence data found" error. -/
def getSequence (region : List Char) (e : Nat) (faq : Nat) : Option (Nat × Nat × Nat) :=
  let isq := faq + 1
  let r := seqScan region e isq 0
  if r.2 = 0 then none else some (isq, r.1, r.2)

/-- `parseAnnot`'s walk from `query->iaq`: count `|` / SOH delimiters until
the requested field count is exhausted (result `p - iaq` bytes), or reach
`query->faq` and fall back to the full annot size minus one (the size the
caller computed before the scan). -/
def parseAnnotAux (region : List Char) (iaq : Nat) (annotSz0 : Nat) :
    Nat → Nat → Nat → Nat
  | 0, _, _ => annotSz0 - 1
  | gas + 1, p, cnt =>
    if region.getD p 'A' = '|' ∨ region.getD p 'A' = SOH then
      if cnt - 1 = 0 then p - iaq
      else parseAnnotAux region iaq annotSz0 gas (p + 1) (cnt - 1)
    else parseAnnotAux region iaq annotSz0 gas (p + 1) cnt

/-- Entry point of the annot-field walk: the loop runs at most `faq - p`
times before `p` reaches `faq`, at which point the caller's size minus one
is returned. -/
def parseAnnotScan (region : List Char) (iaq faq : Nat) (annotSz0 : Nat)
    (p : Nat) (cnt : Nat) : Nat :=
  parseAnnotAux region iaq annotSz0 (faq - p) p cnt

/-- The C loop
`for(i=0; (i < seqLenBuf) && (seqLen[i] == seqSz); i++){ seqSelect=1; break; }`.
The equality test sits in the loop guard, so when the first configured
length differs from `seqSz` the loop exits at `i = 0` without selecting;
when it matches, the body selects and breaks.  Entries past the head are
never consulted. -/
def singleLenScan : List Nat → Nat → Bool
  | [], _ => false
  | l :: _, seqSz => if l = seqSz then true else false

/-- The C loop
`for(i=0; (i < rseqLenBuf) && (rseqLen[2i] <= seqSz) && (rseqLen[2i+1] >= seqSz); i++){ seqSelect=1; break; }`:
as with `singleLenScan`, only the first configured range is ever tested. -/
def rangeLenScan : List (Nat × Nat) → Nat → Bool
  | [], _ => false
  | (lo, hi) :: _, seqSz => if lo ≤ seqSz ∧ seqSz ≤ hi then true else false

/-- The normal-filtering block of `extractQueries`: accept everything when no
length option was given, otherwise run the two scan loops. -/
def filterSelect (a : Args) (seqSz : Nat) : Bool :=
  if a.seqLen.length = 0 ∧ a.rseqLen.length = 0 then true
  else
    (if 0 < a.seqLen.length then singleLenScan a.seqLen seqSz else false) ||
    (if 0 < a.rseqLen.length then rangeLenScan a.rseqLen seqSz else false)

/-- `strncmp(hit, s, strlen(hit)) == 0` for a pointer `s` into the map: the
hit ID must be a byte prefix of the bytes from `s` on.  Hit IDs contain no
newline, and a header ends with `'\n'`, so the comparison is always decided
inside the record being examined. -/
def cPrefix (hit : List Char) (s : List Char) : Bool :=
  List.isPrefixOf hit s

/-- The inner `while(paq != faq)` loop of the BLAST-filter block: advance
`paq` from `iaq+1` to `faq`, and at each SOH byte compare the hit ID against
the bytes following the SOH; the first position whose comparison succeeds is
returned. -/
def altScanAux (region : List Char) (hit : List Char) : Nat → Nat → Option Nat
  | 0, _ => none
  | gas + 1, paq =>
    if region.getD (paq + 1) 'A' = SOH ∧ cPrefix hit (region.drop (paq + 1 + 1)) then
      some (paq + 1)
    else altScanAux region hit gas (paq + 1)

/-- Entry point of the SOH walk: the loop runs at most `faq - paq` times
before `paq` reaches `faq` and the walk gives up. -/
def altScanLoop (region : List Char) (hit : List Char) (faq : Nat) (paq : Nat) :
    Option Nat :=
  altScanAux region hit (faq - paq) paq

/-- One hit ID against one record header: `some none` is a match of the
first annot ID (at `iaq+1`), `some (some k)` a match right after the SOH at
index `k`, and `none` no match. -/
def hitScanOne (region : List Char) (hit : List Char) (iaq faq : Nat) :
    Option (Option Nat) :=
  if cPrefix hit (region.drop (iaq + 1)) then some none
  else
    match altScanLoop region hit faq iaq with
    | some k => some (some k)
    | none => none

/-- The outer `for(i=0; i < htotal && seqSelect == 0; i++)` loop: the first
hit index that matches the record, with how it matched. -/
def lookupLoop (region : List Char) (iaq faq : Nat) :
    List (List Char) → Nat → Option (Nat × Option Nat)
  | [], _ => none
  | hit :: rest, i =>
    match hitScanOne region hit iaq faq with
    | some o => some (i, o)
    | none => lookupLoop region iaq faq rest (i + 1)

/-- The mutable state threaded through `extractQueries`: the region (the C
code overwrites an SOH with `>` on an alternative match, so the mapped bytes
are part of the state), the cursor `query->fsq`, the output stream bytes,
and the counters. -/
structure XState where
  region : List Char
  fsq : Nat
  out : List Char
  bytesWritten : Nat
  xCnt : Nat
  charVect : List Nat
  done : Bool

/-- Result of one pass through the `while(1)` body of `extractQueries`:
`halt` is a C `break`, `next` continues the loop. -/
inductive StepRes where
  | halt (st : XState)
  | next (st : XState)

/-- The `if( seqSelect == 1 )` block of `extractQueries`: compute the exact
byte count `wCnt` for the active annot policy, stop with `done` when it
would overflow the byte budget, otherwise append the bytes and bump the
counters. -/
def writeRecord (cfg : Cfg) (st : XState) (iaq faq isq annotSz rawSeqSz : Nat) :
    StepRes :=
  if cfg.args.annotCnt = cIntMax ∨ cfg.args.annotCnt = cIntMinSucc then
    let wCnt := if cfg.args.annotCnt = cIntMax then annotSz + rawSeqSz else annotSz
    if cfg.args.bytesLimit < wCnt + st.bytesWritten then
      .halt { st with done := true }
    else
      .next { st with out := st.out ++ (st.region.drop iaq).take wCnt,
                      bytesWritten := st.bytesWritten + wCnt, xCnt := st.xCnt + 1 }
  else if cfg.args.annotCnt ≠ 0 then
    let annotSz2 := parseAnnotScan st.region iaq faq annotSz iaq cfg.args.annotCnt.natAbs
    if 0 < cfg.args.annotCnt then
      let wCnt := annotSz2 + rawSeqSz + 1
      if cfg.args.bytesLimit < wCnt + st.bytesWritten then
        .halt { st with done := true }
      else
        .next { st with
          out := st.out ++ (st.region.drop iaq).take annotSz2 ++ ['\n'] ++
                 (st.region.drop isq).take rawSeqSz,
          bytesWritten := st.bytesWritten + wCnt, xCnt := st.xCnt + 1 }
    else
      let wCnt := annotSz2
      if cfg.args.bytesLimit < wCnt + st.bytesWritten then
        .halt { st with done := true }
      else
        .next { st with
          out := st.out ++ (st.region.drop (iaq + 1)).take (annotSz2 - 1) ++ ['\n'],
          bytesWritten := st.bytesWritten + wCnt, xCnt := st.xCnt + 1 }
  else
    let wCnt := rawSeqSz
    if cfg.args.bytesLimit < wCnt + st.bytesWritten then
      .halt { st with done := true }
    else
      .next { st with out := st.out ++ (st.region.drop isq).take wCnt,
                      bytesWritten := st.bytesWritten + wCnt, xCnt := st.xCnt + 1 }

/-- One iteration of the `while(1)` loop of `extractQueries`: quota checks
(serial runs only), header and body parsing, predicate evaluation with the
characteristic-vector update and the SOH rewrite, byte-budget check, and the
writes. -/
def extractStep (cfg : Cfg) (e : Nat) (st : XState) : StepRes :=
  if cfg.procCnt = 1 ∧ st.xCnt = cfg.args.seqCnt then
    .halt { st with done := true }
  else if cfg.procCnt = 1 ∧ (cfg.hits.pipeMode ≠ 0 ∨ cfg.hits.searchMode ≠ 0) ∧
      st.xCnt = cfg.hits.hitList.length then
    .halt { st with done := true }
  else
    match getAnnot st.region e st.fsq with
    | none => .halt st
    | some (iaq, faq) =>
      let annotSz := faq - iaq + 1
      match getSequence st.region e faq with
      | none => .halt st
      | some (isq, fsq2, seqSz) =>
        let rawSeqSz := fsq2 - isq + 1
        if cfg.hits.pipeMode ≠ 0 ∨ cfg.hits.searchMode ≠ 0 then
          match lookupLoop st.region iaq faq cfg.hits.hitList 0 with
          | none => .next { st with fsq := fsq2 }
          | some (i, o) =>
            let cv := st.charVect.set i 1
            let iaq2 := match o with
              | some k => if cfg.args.annotCnt ≠ 0 then k else iaq
              | none => iaq
            let region2 := match o with
              | some k => if cfg.args.annotCnt ≠ 0 then st.region.set k '>' else st.region
              | none => st.region
            writeRecord cfg { st with region := region2, fsq := fsq2, charVect := cv }
              iaq2 faq isq annotSz rawSeqSz
        else
          if filterSelect cfg.args seqSz then
            writeRecord cfg { st with fsq := fsq2 } iaq faq isq annotSz rawSeqSz
          else .next { st with fsq := fsq2 }

/-- The `while(1)` loop of `extractQueries` with an explicit fuel (the
cursor advances by at least two positions per iteration, so any fuel above
the region length reproduces the C loop exactly). -/
def extractLoop (cfg : Cfg) (e : Nat) : Nat → XState → XState
  | 0, st => st
  | fuel + 1, st =>
    match extractStep cfg e st with
    | .halt s => s
    | .next s => extractLoop cfg e fuel s

/-- Ceiling division, modelling `ceil((double)a / b)` (exact below 2^53). -/
def cdiv (a b : Nat) : Nat := (a + b - 1) / b

/-- The backward page-by-page scan of `setOffsQueryFile`: the largest index
`k < hi` whose file byte is `>`.  The C code reads pages of size `P`
backward from `hi` and scans each in reverse; since `hi` is always a
multiple of `P` there, the chunks cover exactly `[0, hi)` and the
`readOffs < 0` bail-out corresponds to no `>` in that range. -/
def findGtBelow (f : Nat → Char) : Nat → Option Nat
  | 0 => none
  | k + 1 => if f k = '>' then some k else findGtBelow f k

/-- The partition-building loop of `setOffsQueryFile`: `r` partitions remain
and the previous partition ended at byte `prevEnd`.  Each entry is
`(page_offset, skew, length)` with `page_offset = P * floor(prevEnd / P)`;
middle partitions end at the last `>` below `page_offset + partSz` (with
zero length rejected as "too many processes", the C return code 2 mapped to
`none`), and the last partition takes the remaining bytes (computed in `Int`
exactly as the C `long long` arithmetic). -/
def buildPlanAux (f : Nat → Char) (S partSz P : Nat) :
    Nat → Nat → Option (List (Int × Int × Int))
  | 0, _ => some []
  | 1, prevEnd =>
    let base := P * (prevEnd / P)
    some [((base : Int), (prevEnd : Int) - base, (S : Int) - prevEnd)]
  | r + 2, prevEnd =>
    let base := P * (prevEnd / P)
    match findGtBelow f (base + partSz) with
    | none => none
    | some pos =>
      if (pos : Int) - prevEnd = 0 then none
      else
        match buildPlanAux f S partSz P (r + 1) pos with
        | none => none
        | some rest => some (((base : Int), (prevEnd : Int) - base, (pos : Int) - prevEnd) :: rest)

/-- `setOffsQueryFile`: nominal partition size
`partSz = P * floor(ceil(S / procCnt) / P)` and the building loop from the
start of the file. -/
def setOffsQueryFile (f : Nat → Char) (S P procCnt : Nat) :
    Option (List (Int × Int × Int)) :=
  buildPlanAux f S (P * (cdiv S procCnt / P)) P procCnt 0

/-- The retry loop of `setOffs`: a single process gets `(0, 0, S)` directly;
otherwise `setOffsQueryFile` runs and on its return code 2 the process
count is decremented and the loop retries.  Returns the adjusted process
count together with the plan. -/
def setOffsLoop (f : Nat → Char) (S P : Nat) : Nat → Nat × List (Int × Int × Int)
  | 0 => (0, [])
  | 1 => (1, [(0, 0, (S : Int))])
  | n + 2 =>
    match setOffsQueryFile f S P (n + 2) with
    | some plan => (n + 2, plan)
    | none => setOffsLoop f S P (n + 1)

/-- Contiguity of a partition plan: each entry starts (`page_offset + skew`)
exactly where the running end `s` sits, and advances it by its length. -/
def planContig : Int → List (Int × Int × Int) → Prop
  | _, [] => True
  | s, (b, k, len) :: rest => b + k = s ∧ planContig (s + len) rest

/-- Total length of a partition plan. -/
def planSum (l : List (Int × Int × Int)) : Int :=
  (l.map (fun t => t.2.2)).sum

/-- Element-wise sum of the per-worker characteristic vectors at index `i`
(the `MPI_Reduce(..., MPI_SUM, ...)` of `writeHitsNotFound`). -/
def sumVects (vects : List (List Nat)) (i : Nat) : Nat :=
  (vects.map (fun v => v.getD i 0)).sum

/-- The output loop of `writeHitsNotFound`: walk the hit list from index
`i`, writing each ID whose summed count `all` is zero followed by a
newline. -/
def notFoundLoopAux (all : Nat → Nat) : List (List Char) → Nat → List Char
  | [], _ => []
  | hd :: rest, i =>
    (if all i = 0 then hd ++ ['\n'] else []) ++ notFoundLoopAux all rest (i + 1)

/-- `writeHitsNotFound` on worker 0: reduce the characteristic vectors by
element-wise sum, write the not-found IDs one per line in index order, and
remove the file when its resulting size is zero (second component `true` =
removed). -/
def writeHitsNotFound (hitList : List (List Char)) (vects : List (List Nat)) :
    List Char × Bool :=
  let out := notFoundLoopAux (fun i => sumVects vects i) hitList 0
  (out, out.length = 0)

/-- The configuration fields consulted by `parseCmdline`'s validation block
(lines 595-660): the four file names and the mode flags; the length options
are carried along because the claims speak about them, but the C validation
never reads them. -/
structure CmdConfig where
  qf : List Char
  ofile : List Char
  sf : List Char
  btable : List Char
  pipeMode : Nat
  searchMode : Nat
  seqLen : List Nat
  rseqLen : List (Nat × Nat)

/-- The post-getopt validation of `parseCmdline` (result `true` = a
configuration error was flagged): pipeline and search mode both set; missing
query file; query = output; query = search file (search mode only); pipeline
mode with a missing BLAST table or with the table equal to the query or
output file. -/
def validateCmdline (c : CmdConfig) : Bool :=
  (c.pipeMode ≠ 0 ∧ c.searchMode ≠ 0) ∨
  (c.qf.length = 0) ∨
  (c.qf.length ≠ 0 ∧ (c.qf = c.ofile ∨ (c.searchMode ≠ 0 ∧ c.qf = c.sf))) ∨
  (c.pipeMode ≠ 0 ∧ (c.btable.length = 0 ∨ c.btable = c.qf ∨ c.btable = c.ofile))

/-- Forward scan of `adjustMapBegin`: the first index in `[p, fMap)` holding
a record start; a 0xFF byte (the C `(int)(*c) == EOF` test on a sign-extended
char) or reaching `fMap` is the error case. -/
def adjBeginAux (region : List Char) : Nat → Nat → Option Nat
  | 0, _ => none
  | gas + 1, p =>
    if region.getD p 'A' = Char.ofNat 255 then none
    else if region.getD p 'A' = '>' then some p
    else adjBeginAux region gas (p + 1)

/-- Entry point of `adjustMapBegin`'s scan: the loop visits the `fMap - p`
positions before the window's last byte. -/
def adjBeginScan (region : List Char) (fMap : Nat) (p : Nat) : Option Nat :=
  adjBeginAux region (fMap - p) p

/-- Backward scan of `adjustMapEnd`: the last index in `(iMap, c]` holding a
record start, with the same EOF error modelling; reaching `iMap` without a
`>` is the error case. -/
def adjEndAux (region : List Char) : Nat → Nat → Option Nat
  | 0, _ => none
  | gas + 1, c =>
    if region.getD c 'A' = Char.ofNat 255 then none
    else if region.getD c 'A' = '>' then some c
    else adjEndAux region gas (c - 1)

/-- Entry point of `adjustMapEnd`'s scan: the loop visits the `c - iMap`
positions above the window's first byte, in reverse. -/
def adjEndScan (region : List Char) (iMap : Nat) (c : Nat) : Option Nat :=
  adjEndAux region (c - iMap) c

/-- The scan state carried across windows by `partQueryFile`: output stream,
counters, the `done` flag, and whether an adjust routine failed (`err`). -/
structure PQState where
  out : List Char
  bytesWritten : Nat
  xCnt : Nat
  charVect : List Nat
  done : Bool
  err : Bool

/-- Build the `extractQueries` entry state for a region from the inter-window
state (pointers reset to the region start). -/
def toXState (region : List Char) (st : PQState) : XState :=
  { region := region, fsq := 0, out := st.out, bytesWritten := st.bytesWritten,
    xCnt := st.xCnt, charVect := st.charVect, done := st.done }

/-- Project the inter-window state back out of an `extractQueries` run. -/
def ofXState (x : XState) : PQState :=
  { out := x.out, bytesWritten := x.bytesWritten, xCnt := x.xCnt,
    charVect := x.charVect, done := x.done, err := false }

/-- The memory-map loop of `partQueryFile` for one worker whose partition is
the whole file `F` (the serial `fileOffs = (0, 0, |F|)` case), with window
size `W` (the `IMAP_LIMIT` chunk, a page multiple).  The first argument is
the number of windows still to process (`nmaps - nmap`), the second the
current window index; window `nmap` covers `[nmap*W, nmap*W + msz)`.  For
windows after the first, `adjustMapBegin` finds the first record start, the
bytes before it grow the carry buffer, and the buffer is processed as its
own region; for windows before the last, `adjustMapEnd` trims the window at
its last record start and copies the tail into the next carry buffer.  Any
adjust failure sets `err` and breaks, as does the `done` flag between
windows. -/
def partLoop (cfg : Cfg) (F : List Char) (W : Nat) :
    Nat → Nat → List Char → PQState → PQState
  | 0, _, _, st => st
  | rem + 1, nmap, carry, st =>
    if st.done then st
    else
      let mrem := rem
      let offset := nmap * W
      let msz := if mrem = 0 then F.length - offset else W
      let region := (F.drop offset).take msz
      let stepB : Option (List Char × PQState) :=
        if nmap = 0 then some (region, st)
        else
          match adjBeginScan region (msz - 1) 0 with
          | none => none
          | some k =>
            let carry2 := if 0 < k then carry ++ region.take k else carry
            let xb := extractLoop cfg (carry2.length - 1) (carry2.length + 2)
              (toXState carry2 st)
            some (region.drop k, ofXState xb)
      match stepB with
      | none => { st with err := true }
      | some (regionW, st2) =>
        if mrem = 0 then
          let xm := extractLoop cfg (regionW.length - 1) (regionW.length + 2)
            (toXState regionW st2)
          partLoop cfg F W rem (nmap + 1) [] (ofXState xm)
        else
          match adjEndScan regionW 0 (regionW.length - 1) with
          | none => { st2 with err := true }
          | some r =>
            let newCarry := regionW.drop r
            let xm := extractLoop cfg (r - 1) (regionW.length + 2)
              (toXState regionW st2)
            partLoop cfg F W rem (nmap + 1) newCarry (ofXState xm)

/-- `partQueryFile` for a single worker: `nmaps = ceil(|F| / W)` windows are
processed from an empty output and zeroed counters; `cv0` is the
characteristic vector allocated by the hit-list loader (`calloc`, all
zeroes). -/
def partQueryFileRun (cfg : Cfg) (F : List Char) (W : Nat) (cv0 : List Nat) :
    PQState :=
  partLoop cfg F W (cdiv F.length W) 0 []
    { out := [], bytesWritten := 0, xCnt := 0, charVect := cv0,
      done := false, err := false }

/-- Spec-side helper (wording of the spec, for comparison with the code): an
annot ID starting at index `k` of a header runs to the next `|`, SOH or
end of the header line. -/
def idAt (hdr : List Char) (k : Nat) : List Char :=
  (hdr.drop k).takeWhile (fun c => ¬ (c = '|' ∨ c = SOH ∨ c = '\n'))

/-- Spec-side helper (wording of the claim): the header list of a record is
the first ID (bytes after `>` up to the next delimiter or end of header)
plus every ID that begins immediately after an SOH inside the header. -/
def headerIDs (hdr : List Char) : List (List Char) :=
  idAt hdr 1 ::
    (List.range hdr.length).filterMap
      (fun k => if hdr.getD k 'A' = SOH then some (idAt hdr (k + 1)) else none)

/-- Header slices of the records of a region, parsed with the code's own
`getAnnot` / `getSequence` (used to state counterexamples about records). -/
def recordHeaders (region : List Char) (e : Nat) : Nat → Nat → List (List Char)
  | 0, _ => []
  | fuel + 1, cursor =>
    match getAnnot region e cursor with
    | none => []
    | some (iaq, faq) =>
      match getSequence region e faq with
      | none => []
      | some (_, fsq2, _) =>
        ((region.drop iaq).take (faq - iaq + 1)) ::
          recordHeaders region e fuel fsq2

/-! Helper lemmas about the embedded operations. -/

/-- The state carried by either constructor of `StepRes`. -/
def stepState : StepRes → XState
  | .halt s => s
  | .next s => s

/-- `getD` after `set i 1`: the entry at `i` becomes `1` (when in range),
every other entry is unchanged. -/
theorem getD_set_one (l : List Nat) (i j : Nat) :
    (l.set i 1).getD j 0 = if i = j ∧ j < l.length then 1 else l.getD j 0 := by
  simp only [List.getD_eq_getElem?_getD, List.getElem?_set]
  by_cases hij : i = j
  · subst hij
    by_cases hj : i < l.length <;> simp [hj, List.getElem?_eq_none, Nat.le_of_not_lt]
  · simp [hij]

/-- Shape of `writeRecord`: either the byte budget would be exceeded and the
state is returned untouched except for the `done` flag (no byte of the
record is written), or the record's bytes are appended, the byte counter
grows by the precomputed `wCnt` while staying within the budget, and the
record counter advances by one. -/
theorem writeRecord_shape (cfg : Cfg) (st : XState) (iaq faq isq annotSz rawSeqSz : Nat) :
    writeRecord cfg st iaq faq isq annotSz rawSeqSz = .halt { st with done := true } ∨
    ∃ out2 wCnt, wCnt + st.bytesWritten ≤ cfg.args.bytesLimit ∧
      writeRecord cfg st iaq faq isq annotSz rawSeqSz =
        .next { st with out := out2,
                        bytesWritten := st.bytesWritten + wCnt, xCnt := st.xCnt + 1 } := by
  unfold writeRecord
  dsimp only
  repeat' split
  all_goals first
    | exact Or.inl rfl
    | (rename_i hle; exact Or.inr ⟨_, _, by omega, rfl⟩)

/-- Evolution of one `extractQueries` iteration: the region, the cursor and
(at most one entry of) the characteristic vector may change; the output,
byte counter and record counter change only in the written case, which is
guarded by both quota checks and by the byte budget. -/
theorem extractStep_evolution (cfg : Cfg) (e : Nat) (st : XState) :
    ∃ r2 f2 cv2,
      (cv2 = st.charVect ∨ ∃ i, cv2 = st.charVect.set i 1) ∧
      ((∃ dn, extractStep cfg e st =
          .halt { st with region := r2, fsq := f2, charVect := cv2, done := dn }) ∨
       extractStep cfg e st = .next { st with region := r2, fsq := f2, charVect := cv2 } ∨
       (¬ (cfg.procCnt = 1 ∧ st.xCnt = cfg.args.seqCnt) ∧
        ¬ (cfg.procCnt = 1 ∧ (cfg.hits.pipeMode ≠ 0 ∨ cfg.hits.searchMode ≠ 0) ∧
            st.xCnt = cfg.hits.hitList.length) ∧
        ∃ out2 wCnt, wCnt + st.bytesWritten ≤ cfg.args.bytesLimit ∧
          extractStep cfg e st =
            .next { st with region := r2, fsq := f2, charVect := cv2,
                            out := out2,
                            bytesWritten := st.bytesWritten + wCnt,
                            xCnt := st.xCnt + 1 })) := by
  unfold extractStep
  split
  · exact ⟨st.region, st.fsq, st.charVect, Or.inl rfl, Or.inl ⟨true, rfl⟩⟩
  split
  · exact ⟨st.region, st.fsq, st.charVect, Or.inl rfl, Or.inl ⟨true, rfl⟩⟩
  rename_i hq1 hq2
  split
  · exact ⟨st.region, st.fsq, st.charVect, Or.inl rfl, Or.inl ⟨st.done, rfl⟩⟩
  rename_i iaq faq _
  split
  · exact ⟨st.region, st.fsq, st.charVect, Or.inl rfl, Or.inl ⟨st.done, rfl⟩⟩
  rename_i isq fsq2 seqSz _
  split
  · -- hits-mode branch
    split
    · -- no hit matched
      exact ⟨st.region, fsq2, st.charVect, Or.inl rfl, Or.inr (Or.inl rfl)⟩
    · rename_i i o _
      cases o with
      | none =>
        dsimp only
        rcases writeRecord_shape cfg
            { st with region := st.region, fsq := fsq2, charVect := st.charVect.set i 1 }
            iaq faq isq (faq - iaq + 1) (fsq2 - isq + 1) with h | ⟨out2, wCnt, hw, h⟩
        · exact ⟨st.region, fsq2, st.charVect.set i 1, Or.inr ⟨i, rfl⟩,
            Or.inl ⟨true, by rw [h]⟩⟩
        · exact ⟨st.region, fsq2, st.charVect.set i 1, Or.inr ⟨i, rfl⟩,
            Or.inr (Or.inr ⟨hq1, hq2, out2, wCnt, hw, by rw [h]⟩)⟩
      | some k =>
        dsimp only
        by_cases hA : cfg.args.annotCnt ≠ 0
        · rw [if_pos hA, if_pos hA]
          rcases writeRecord_shape cfg
              { st with region := st.region.set k '>', fsq := fsq2,
                        charVect := st.charVect.set i 1 }
              k faq isq (faq - iaq + 1) (fsq2 - isq + 1) with h | ⟨out2, wCnt, hw, h⟩
          · exact ⟨st.region.set k '>', fsq2, st.charVect.set i 1, Or.inr ⟨i, rfl⟩,
              Or.inl ⟨true, by rw [h]⟩⟩
          · exact ⟨st.region.set k '>', fsq2, st.charVect.set i 1, Or.inr ⟨i, rfl⟩,
              Or.inr (Or.inr ⟨hq1, hq2, out2, wCnt, hw, by rw [h]⟩)⟩
        · rw [if_neg hA, if_neg hA]
          rcases writeRecord_shape cfg
              { st with region := st.region, fsq := fsq2, charVect := st.charVect.set i 1 }
              iaq faq isq (faq - iaq + 1) (fsq2 - isq + 1) with h | ⟨out2, wCnt, hw, h⟩
          · exact ⟨st.region, fsq2, st.charVect.set i 1, Or.inr ⟨i, rfl⟩,
              Or.inl ⟨true, by rw [h]⟩⟩
          · exact ⟨st.region, fsq2, st.charVect.set i 1, Or.inr ⟨i, rfl⟩,
              Or.inr (Or.inr ⟨hq1, hq2, out2, wCnt, hw, by rw [h]⟩)⟩
  · -- filter-mode branch
    split
    · rcases writeRecord_shape cfg { st with fsq := fsq2 }
          iaq faq isq (faq - iaq + 1) (fsq2 - isq + 1) with h | ⟨out2, wCnt, hw, h⟩
      · exact ⟨st.region, fsq2, st.charVect, Or.inl rfl, Or.inl ⟨true, by rw [h]⟩⟩
      · exact ⟨st.region, fsq2, st.charVect, Or.inl rfl,
          Or.inr (Or.inr ⟨hq1, hq2, out2, wCnt, hw, by rw [h]⟩)⟩
    · exact ⟨st.region, fsq2, st.charVect, Or.inl rfl, Or.inr (Or.inl rfl)⟩

/-! Claim theorems: budgets and counters (C3, C10), characteristic vector
(C4), and the not-found report (C5). -/

/-- C3: for every accepted record the exact byte count is computed before
writing and checked against the budget, so the cumulative bytes written by
one worker never exceed the configured byte limit, and in single-worker runs
the number of extracted records never exceeds the configured record
ceiling. -/
theorem c3_budget_and_count_bounds (cfg : Cfg) (e fuel : Nat) (st : XState)
    (hb : st.bytesWritten ≤ cfg.args.bytesLimit) :
    (extractLoop cfg e fuel st).bytesWritten ≤ cfg.args.bytesLimit ∧
    (cfg.procCnt = 1 → st.xCnt ≤ cfg.args.seqCnt →
      (extractLoop cfg e fuel st).xCnt ≤ cfg.args.seqCnt) := by
  have main : ∀ fuel st, st.bytesWritten ≤ cfg.args.bytesLimit →
      (extractLoop cfg e fuel st).bytesWritten ≤ cfg.args.bytesLimit ∧
      (cfg.procCnt = 1 → st.xCnt ≤ cfg.args.seqCnt →
        (extractLoop cfg e fuel st).xCnt ≤ cfg.args.seqCnt) := by
    intro fuel
    induction fuel with
    | zero => exact fun st hb => ⟨hb, fun _ hx => hx⟩
    | succ fuel ih =>
      intro st hb
      obtain ⟨r2, f2, cv2, _, hcase⟩ := extractStep_evolution cfg e st
      rcases hcase with ⟨dn, hs⟩ | hs | ⟨hg1, _, out2, wCnt, hw, hs⟩
      · simp only [extractLoop, hs]
        exact ⟨hb, fun _ hx => hx⟩
      · simp only [extractLoop, hs]
        exact ih _ hb
      · simp only [extractLoop, hs]
        have hrec := ih
          { st with region := r2, fsq := f2, charVect := cv2, out := out2,
                    bytesWritten := st.bytesWritten + wCnt, xCnt := st.xCnt + 1 }
          (by change st.bytesWritten + wCnt ≤ cfg.args.bytesLimit; omega)
        refine ⟨hrec.1, fun hpc hx => hrec.2 hpc ?_⟩
        have hne : st.xCnt ≠ cfg.args.seqCnt := fun hh => hg1 ⟨hpc, hh⟩
        change st.xCnt + 1 ≤ cfg.args.seqCnt
        omega
  exact main fuel st hb

/-- Witness for C3 at a concrete configuration and state. -/
theorem c3_budget_and_count_bounds_witness :
    (extractLoop
      { args := { seqLen := [], rseqLen := [], seqCnt := 1, bytesLimit := 5,
                  annotCnt := cIntMax, pipeMode := 0, searchMode := 0 },
        hits := { hitList := [], pipeMode := 0, searchMode := 0 }, procCnt := 1 } 8 12
      { region := (">a\nCCCC\n").toList, fsq := 0, out := [], bytesWritten := 0,
        xCnt := 0, charVect := [], done := false }).bytesWritten ≤ 5 ∧
    (1 = 1 → 0 ≤ 1 →
      (extractLoop
        { args := { seqLen := [], rseqLen := [], seqCnt := 1, bytesLimit := 5,
                    annotCnt := cIntMax, pipeMode := 0, searchMode := 0 },
          hits := { hitList := [], pipeMode := 0, searchMode := 0 }, procCnt := 1 } 8 12
        { region := (">a\nCCCC\n").toList, fsq := 0, out := [], bytesWritten := 0,
          xCnt := 0, charVect := [], done := false }).xCnt ≤ 1) :=
  c3_budget_and_count_bounds _ 8 12 _ (by decide)

/-- C10: in a single-worker run with the BLAST pipeline or search mode
active, the number of extracted records never exceeds the number of indexed
hit IDs, and the moment the extracted count equals that number the loop sets
the done flag and stops without touching another record. -/
theorem c10_pipeline_quota (cfg : Cfg) (e fuel : Nat) (st : XState)
    (h1 : cfg.procCnt = 1)
    (h2 : cfg.hits.pipeMode ≠ 0 ∨ cfg.hits.searchMode ≠ 0)
    (h3 : st.xCnt ≤ cfg.hits.hitList.length) :
    (extractLoop cfg e fuel st).xCnt ≤ cfg.hits.hitList.length ∧
    (st.xCnt = cfg.hits.hitList.length → 0 < fuel →
      extractLoop cfg e fuel st = { st with done := true }) := by
  constructor
  · have main : ∀ fuel st, st.xCnt ≤ cfg.hits.hitList.length →
        (extractLoop cfg e fuel st).xCnt ≤ cfg.hits.hitList.length := by
      intro fuel
      induction fuel with
      | zero => exact fun st h3 => h3
      | succ fuel ih =>
        intro st h3
        obtain ⟨r2, f2, cv2, _, hcase⟩ := extractStep_evolution cfg e st
        rcases hcase with ⟨dn, hs⟩ | hs | ⟨_, hg2, out2, wCnt, hw, hs⟩
        · simp only [extractLoop, hs]
          exact h3
        · simp only [extractLoop, hs]
          exact ih _ h3
        · simp only [extractLoop, hs]
          refine ih _ ?_
          have hne : st.xCnt ≠ cfg.hits.hitList.length := fun hh => hg2 ⟨h1, h2, hh⟩
          change st.xCnt + 1 ≤ cfg.hits.hitList.length
          omega
    exact main fuel st h3
  · intro hxe hfuel
    cases fuel with
    | zero => omega
    | succ f =>
      have hstep : extractStep cfg e st = .halt { st with done := true } := by
        unfold extractStep
        by_cases hq : cfg.procCnt = 1 ∧ st.xCnt = cfg.args.seqCnt
        · rw [if_pos hq]
        · rw [if_neg hq, if_pos ⟨h1, h2, hxe⟩]
      simp [extractLoop, hstep]

/-- Witness for C10 at a concrete configuration and state. -/
theorem c10_pipeline_quota_witness :
    (extractLoop
      { args := { seqLen := [], rseqLen := [], seqCnt := 1000, bytesLimit := 1000,
                  annotCnt := cIntMax, pipeMode := 1, searchMode := 0 },
        hits := { hitList := [['h', '1']], pipeMode := 1, searchMode := 0 },
        procCnt := 1 } 11 20
      { region := (">h1\nA\n>h1\nC\n").toList, fsq := 0, out := [], bytesWritten := 0,
        xCnt := 0, charVect := [0], done := false }).xCnt ≤ 1 ∧
    (0 = 1 → 0 < 20 →
      extractLoop
        { args := { seqLen := [], rseqLen := [], seqCnt := 1000, bytesLimit := 1000,
                    annotCnt := cIntMax, pipeMode := 1, searchMode := 0 },
          hits := { hitList := [['h', '1']], pipeMode := 1, searchMode := 0 },
          procCnt := 1 } 11 20
        { region := (">h1\nA\n>h1\nC\n").toList, fsq := 0, out := [], bytesWritten := 0,
          xCnt := 0, charVect := [0], done := false } =
      { region := (">h1\nA\n>h1\nC\n").toList, fsq := 0, out := [], bytesWritten := 0,
        xCnt := 0, charVect := [0], done := true }) :=
  c10_pipeline_quota _ 11 20 _ rfl (Or.inl (by decide)) (by decide)

/-- C4 (amended): the per-worker characteristic-vector entries are 0/1 flags
(`charVect[i] = 1` on a match, not an increment): entries stay at most 1 and
never fall back from 1, so the cross-worker sum counts matching workers, not
matching records. -/
theorem c4_charVect_flag (cfg : Cfg) (e fuel : Nat) (st : XState)
    (h : ∀ j < st.charVect.length, st.charVect.getD j 0 ≤ 1) :
    (∀ j < (extractLoop cfg e fuel st).charVect.length,
      (extractLoop cfg e fuel st).charVect.getD j 0 ≤ 1) ∧
    (∀ j, st.charVect.getD j 0 = 1 →
      (extractLoop cfg e fuel st).charVect.getD j 0 = 1) := by
  have main : ∀ fuel st, (∀ j < st.charVect.length, st.charVect.getD j 0 ≤ 1) →
      (∀ j < (extractLoop cfg e fuel st).charVect.length,
        (extractLoop cfg e fuel st).charVect.getD j 0 ≤ 1) ∧
      (∀ j, st.charVect.getD j 0 = 1 →
        (extractLoop cfg e fuel st).charVect.getD j 0 = 1) := by
    intro fuel
    induction fuel with
    | zero => exact fun st hst => ⟨hst, fun _ hj => hj⟩
    | succ fuel ih =>
      intro st hst
      obtain ⟨r2, f2, cv2, hcvshape, hcase⟩ := extractStep_evolution cfg e st
      have hcv : (∀ j < cv2.length, cv2.getD j 0 ≤ 1) ∧
          (∀ j, st.charVect.getD j 0 = 1 → cv2.getD j 0 = 1) := by
        rcases hcvshape with rfl | ⟨i, rfl⟩
        · exact ⟨hst, fun _ hj => hj⟩
        · constructor
          · intro j hj
            rw [getD_set_one]
            split
            · omega
            · exact hst j (by simpa using hj)
          · intro j hj
            rw [getD_set_one]
            split
            · rfl
            · exact hj
      rcases hcase with ⟨dn, hs⟩ | hs | ⟨_, _, out2, wCnt, _, hs⟩
      · simp only [extractLoop, hs]
        exact hcv
      · simp only [extractLoop, hs]
        have hrec := ih { st with region := r2, fsq := f2, charVect := cv2 } hcv.1
        exact ⟨hrec.1, fun j hj => hrec.2 j (hcv.2 j hj)⟩
      · simp only [extractLoop, hs]
        have hrec := ih
          { st with region := r2, fsq := f2, charVect := cv2, out := out2,
                    bytesWritten := st.bytesWritten + wCnt, xCnt := st.xCnt + 1 }
          hcv.1
        exact ⟨hrec.1, fun j hj => hrec.2 j (hcv.2 j hj)⟩
  exact main fuel st h

/-- Witness for C4 at a concrete configuration and state. -/
theorem c4_charVect_flag_witness :
    (∀ j < (1 : Nat), ([0] : List Nat).getD j 0 ≤ 1) ∧
    ((∀ j < (extractLoop
        { args := { seqLen := [], rseqLen := [], seqCnt := 1000, bytesLimit := 1000,
                    annotCnt := cIntMax, pipeMode := 1, searchMode := 0 },
          hits := { hitList := [['h', '1']], pipeMode := 1, searchMode := 0 },
          procCnt := 2 } 11 30
        { region := (">h1\nA\n>h1\nC\n").toList, fsq := 0, out := [], bytesWritten := 0,
          xCnt := 0, charVect := [0], done := false }).charVect.length,
      (extractLoop
        { args := { seqLen := [], rseqLen := [], seqCnt := 1000, bytesLimit := 1000,
                    annotCnt := cIntMax, pipeMode := 1, searchMode := 0 },
          hits := { hitList := [['h', '1']], pipeMode := 1, searchMode := 0 },
          procCnt := 2 } 11 30
        { region := (">h1\nA\n>h1\nC\n").toList, fsq := 0, out := [], bytesWritten := 0,
          xCnt := 0, charVect := [0], done := false }).charVect.getD j 0 ≤ 1) ∧
     (∀ j, ([0] : List Nat).getD j 0 = 1 →
      (extractLoop
        { args := { seqLen := [], rseqLen := [], seqCnt := 1000, bytesLimit := 1000,
                    annotCnt := cIntMax, pipeMode := 1, searchMode := 0 },
          hits := { hitList := [['h', '1']], pipeMode := 1, searchMode := 0 },
          procCnt := 2 } 11 30
        { region := (">h1\nA\n>h1\nC\n").toList, fsq := 0, out := [], bytesWritten := 0,
          xCnt := 0, charVect := [0], done := false }).charVect.getD j 0 = 1)) :=
  ⟨by decide, c4_charVect_flag _ 11 30 _ (by decide)⟩

/-- C4 counterexample: a source with two distinct records whose primary ID
equals the single hit ID `h1`, split over two workers (the second worker's
range holds a non-matching record).  The claim demands a summed seen-count
of 2; the code's characteristic vector is a flag that is set to 1, so the
sum is 1. -/
theorem c4_seen_flag_not_count_cex :
    ((extractLoop
        { args := { seqLen := [], rseqLen := [], seqCnt := 1000, bytesLimit := 1000,
                    annotCnt := cIntMax, pipeMode := 1, searchMode := 0 },
          hits := { hitList := [['h', '1']], pipeMode := 1, searchMode := 0 },
          procCnt := 2 } 11 30
        { region := (">h1\nA\n>h1\nC\n").toList, fsq := 0, out := [], bytesWritten := 0,
          xCnt := 0, charVect := [0], done := false }).charVect.getD 0 0 +
      (extractLoop
        { args := { seqLen := [], rseqLen := [], seqCnt := 1000, bytesLimit := 1000,
                    annotCnt := cIntMax, pipeMode := 1, searchMode := 0 },
          hits := { hitList := [['h', '1']], pipeMode := 1, searchMode := 0 },
          procCnt := 2 } 5 20
        { region := (">z\nQ\n").toList, fsq := 0, out := [], bytesWritten := 0,
          xCnt := 0, charVect := [0], done := false }).charVect.getD 0 0) = 1 ∧
    ((recordHeaders ((">h1\nA\n>h1\nC\n").toList ++ (">z\nQ\n").toList) 17 10 0).countP
      (fun hdr => decide (['h', '1'] ∈ headerIDs hdr))) = 2 := by decide

/-- The output loop of `writeHitsNotFound` produces, in index order, exactly
the IDs whose summed count is zero, each followed by a newline. -/
theorem notFoundLoopAux_eq (all : Nat → Nat) (l : List (List Char)) (i : Nat) :
    notFoundLoopAux all l i =
      (((l.enumFrom i).filter (fun p => all p.1 = 0)).map
        (fun p => p.2 ++ ['\n'])).flatten := by
  induction l generalizing i with
  | nil => simp [notFoundLoopAux]
  | cons hd rest ih =>
    by_cases h : all i = 0 <;>
      simp [notFoundLoopAux, List.enumFrom_cons, h, ih]

/-- The not-found output is empty exactly when every summed count from
index `i` on is nonzero. -/
theorem notFoundLoopAux_nil_iff (all : Nat → Nat) (l : List (List Char)) (i : Nat) :
    notFoundLoopAux all l i = [] ↔ ∀ j < l.length, all (i + j) ≠ 0 := by
  induction l generalizing i with
  | nil => simp [notFoundLoopAux]
  | cons hd rest ih =>
    by_cases h : all i = 0
    · simp only [notFoundLoopAux, if_pos h]
      constructor
      · intro hfalse
        exact absurd hfalse (by simp)
      · intro hall
        exact absurd h (by simpa using hall 0 (by simp))
    · simp only [notFoundLoopAux, if_neg h, List.nil_append]
      rw [ih]
      constructor
      · intro hr j hj
        cases j with
        | zero => simpa using h
        | succ j =>
          have := hr j (by simpa using Nat.lt_of_succ_lt_succ hj)
          rw [show i + (j + 1) = i + 1 + j by omega]
          exact this
      · intro hall j hj
        have := hall (j + 1) (by simpa using Nat.succ_lt_succ hj)
        rw [show i + 1 + j = i + (j + 1) by omega]
        exact this

/-- C5: after a lookup-mode scan, worker 0 reduces the per-worker
characteristic vectors by element-wise sum and writes to the notFound file
exactly those indexed hit IDs whose summed entry is 0, one per line in index
order, and the file is removed exactly when no entry sums to 0. -/
theorem c5_notFound_spec (hitList : List (List Char)) (vects : List (List Nat)) :
    (writeHitsNotFound hitList vects).1 =
      ((hitList.enum.filter (fun p => sumVects vects p.1 = 0)).map
        (fun p => p.2 ++ ['\n'])).flatten ∧
    ((writeHitsNotFound hitList vects).2 = true ↔
      ∀ i < hitList.length, sumVects vects i ≠ 0) := by
  constructor
  · simpa [writeHitsNotFound, List.enum] using
      notFoundLoopAux_eq (fun i => sumVects vects i) hitList 0
  · simp only [writeHitsNotFound, decide_eq_true_eq, List.length_eq_zero]
    simpa using notFoundLoopAux_nil_iff (fun i => sumVects vects i) hitList 0

/-- C1: the claim says a record is accepted exactly when its length matches
some configured exact length or falls in some configured range; the code's
loop guards consult only the first configured length and the first
configured range.  A record of length 6 with configured lengths `[4, 6]`
(or ranges `[(1,2), (5,7)]`) is rejected although 6 is configured, while
the same record with `[6]` alone is extracted. -/
theorem c1_first_length_only_bug :
    filterSelect { seqLen := [4, 6], rseqLen := [], seqCnt := 1000, bytesLimit := 1000,
                   annotCnt := cIntMax, pipeMode := 0, searchMode := 0 } 6 = false ∧
    (6 : Nat) ∈ [4, 6] ∧
    filterSelect { seqLen := [], rseqLen := [(1, 2), (5, 7)], seqCnt := 1000,
                   bytesLimit := 1000, annotCnt := cIntMax, pipeMode := 0,
                   searchMode := 0 } 6 = false ∧
    ((5 : Nat) ≤ 6 ∧ (6 : Nat) ≤ 7) ∧
    filterSelect { seqLen := [6], rseqLen := [], seqCnt := 1000, bytesLimit := 1000,
                   annotCnt := cIntMax, pipeMode := 0, searchMode := 0 } 6 = true ∧
    (extractLoop
      { args := { seqLen := [4, 6], rseqLen := [], seqCnt := 1000, bytesLimit := 1000,
                  annotCnt := cIntMax, pipeMode := 0, searchMode := 0 },
        hits := { hitList := [], pipeMode := 0, searchMode := 0 }, procCnt := 1 } 9 20
      { region := (">a\nAAAAAA\n").toList, fsq := 0, out := [], bytesWritten := 0,
        xCnt := 0, charVect := [], done := false }).out = [] ∧
    (extractLoop
      { args := { seqLen := [6], rseqLen := [], seqCnt := 1000, bytesLimit := 1000,
                  annotCnt := cIntMax, pipeMode := 0, searchMode := 0 },
        hits := { hitList := [], pipeMode := 0, searchMode := 0 }, procCnt := 1 } 9 20
      { region := (">a\nAAAAAA\n").toList, fsq := 0, out := [], bytesWritten := 0,
        xCnt := 0, charVect := [], done := false }).out = (">a\nAAAAAA\n").toList := by
  decide

/-- The SOH walk finds some position exactly when a tested position in
`(paq, paq + gas]` carries an SOH whose following bytes start with the hit
ID. -/
theorem altScanAux_some_iff (region hit : List Char) :
    ∀ gas paq, (∃ k, altScanAux region hit gas paq = some k) ↔
      ∃ k, paq + 1 ≤ k ∧ k ≤ paq + gas ∧ region.getD k 'A' = SOH ∧
        cPrefix hit (region.drop (k + 1)) = true := by
  intro gas
  induction gas with
  | zero =>
    intro paq
    constructor
    · rintro ⟨k, hk⟩; simp [altScanAux] at hk
    · rintro ⟨k, h1, h2, _⟩; omega
  | succ gas ih =>
    intro paq
    by_cases hm : region.getD (paq + 1) 'A' = SOH ∧
        cPrefix hit (region.drop (paq + 1 + 1)) = true
    · constructor
      · intro _
        exact ⟨paq + 1, by omega, by omega, hm.1, hm.2⟩
      · intro _
        refine ⟨paq + 1, ?_⟩
        simp only [altScanAux]
        rw [if_pos hm]
    · have hstep : altScanAux region hit (gas + 1) paq = altScanAux region hit gas (paq + 1) := by
        simp only [altScanAux]
        rw [if_neg hm]
      rw [hstep, ih (paq + 1)]
      constructor
      · rintro ⟨k, h1, h2, h3, h4⟩
        exact ⟨k, by omega, by omega, h3, h4⟩
      · rintro ⟨k, h1, h2, h3, h4⟩
        refine ⟨k, ?_, by omega, h3, h4⟩
        rcases Nat.eq_or_lt_of_le h1 with heq | hlt
        · exact absurd ⟨heq ▸ h3, heq ▸ h4⟩ hm
        · omega

/-- One hit matches a record exactly when it is a byte prefix of the bytes
after the leading `>`, or some SOH inside the header is followed by bytes
starting with the hit. -/
theorem hitScanOne_isSome_iff (region hit : List Char) (iaq faq : Nat) :
    (hitScanOne region hit iaq faq).isSome = true ↔
      cPrefix hit (region.drop (iaq + 1)) = true ∨
      ∃ k, altScanLoop region hit faq iaq = some k := by
  unfold hitScanOne
  by_cases hp : cPrefix hit (region.drop (iaq + 1)) = true
  · simp [hp]
  · simp only [if_neg hp]
    cases h : altScanLoop region hit faq iaq <;> simp [h, hp]

/-- The hit loop selects a record exactly when some hit in the list
matches it. -/
theorem lookupLoop_isSome_iff (region : List Char) (iaq faq : Nat) :
    ∀ (hits : List (List Char)) (i : Nat),
      (lookupLoop region iaq faq hits i).isSome = true ↔
        ∃ hit ∈ hits, (hitScanOne region hit iaq faq).isSome = true := by
  intro hits
  induction hits with
  | nil => intro i; simp [lookupLoop]
  | cons hit rest ih =>
    intro i
    cases hh : hitScanOne region hit iaq faq with
    | none => simp [lookupLoop, hh, ih (i + 1)]
    | some o => simp [lookupLoop, hh]

/-- C2 (amended): in lookup mode a parsed record is accepted exactly when
some indexed hit ID is a bytewise prefix of the header suffix that starts
right after the leading `>` or right after some SOH delimiter inside the
header; the match is a prefix comparison of `strlen(hit)` bytes, not an
equality of delimited IDs, and does not stop at a `|` delimiter. -/
theorem c2_lookup_prefix_iff (region : List Char) (iaq faq : Nat)
    (hits : List (List Char)) (hle : iaq ≤ faq) :
    (lookupLoop region iaq faq hits 0).isSome = true ↔
      ∃ hit ∈ hits,
        cPrefix hit (region.drop (iaq + 1)) = true ∨
        ∃ k, iaq + 1 ≤ k ∧ k ≤ faq ∧ region.getD k 'A' = SOH ∧
          cPrefix hit (region.drop (k + 1)) = true := by
  rw [lookupLoop_isSome_iff]
  refine exists_congr fun hit => and_congr_right fun _ => ?_
  rw [hitScanOne_isSome_iff]
  refine or_congr Iff.rfl ?_
  unfold altScanLoop
  rw [altScanAux_some_iff]
  constructor
  · rintro ⟨k, h1, h2, h3, h4⟩
    exact ⟨k, h1, by omega, h3, h4⟩
  · rintro ⟨k, h1, h2, h3, h4⟩
    exact ⟨k, h1, by omega, h3, h4⟩

/-- Witness for C2 at a concrete record and hit list. -/
theorem c2_lookup_prefix_iff_witness :
    (0 : Nat) ≤ 4 ∧
    ((lookupLoop (">h12\nAB\n").toList 0 4 [['h', '1']] 0).isSome = true ↔
      ∃ hit ∈ [['h', '1']],
        cPrefix hit ((">h12\nAB\n").toList.drop (0 + 1)) = true ∨
        ∃ k, 0 + 1 ≤ k ∧ k ≤ 4 ∧ (">h12\nAB\n").toList.getD k 'A' = SOH ∧
          cPrefix hit ((">h12\nAB\n").toList.drop (k + 1)) = true) :=
  ⟨by omega, c2_lookup_prefix_iff _ 0 4 _ (by omega)⟩

/-- C2 counterexample: with hit list `[h1]` the record `>h12` is accepted by
the code (prefix match of `h1` against `h12...`), although no ID in its
header list (`[h12]`) is bytewise equal to any indexed hit ID. -/
theorem c2_prefix_not_equality_cex :
    (lookupLoop (">h12\nAB\n").toList 0 4 [['h', '1']] 0).isSome = true ∧
    headerIDs (((">h12\nAB\n").toList.drop 0).take 5) = [['h', '1', '2']] ∧
    ¬ (['h', '1'] ∈ headerIDs (((">h12\nAB\n").toList.drop 0).take 5)) := by
  decide

/-- C9 counterexample: a configuration with a filter length (`seqLen = [7]`)
and a lookup source (search mode with a search file) passes `parseCmdline`'s
validation without an error — the conflict the claim describes is not
detected. -/
theorem c9_no_conflict_error_cex :
    validateCmdline { qf := ['q'], ofile := ['o'], sf := ['s'], btable := [],
                      pipeMode := 0, searchMode := 1, seqLen := [7],
                      rseqLen := [] } = false ∧
    ({ qf := ['q'], ofile := ['o'], sf := ['s'], btable := [], pipeMode := 0,
       searchMode := 1, seqLen := [7], rseqLen := [] } : CmdConfig).seqLen ≠ [] ∧
    ({ qf := ['q'], ofile := ['o'], sf := ['s'], btable := [], pipeMode := 0,
       searchMode := 1, seqLen := [7], rseqLen := [] } : CmdConfig).searchMode ≠ 0 := by
  decide

/-- C9 (amended): the mutual-exclusion error `parseCmdline` detects pre-scan
is a BLAST pipeline combined with a search file; a filter length together
with a lookup source is accepted, and during the scan the lookup predicate
takes precedence — the selection step does not depend on the configured
lengths or ranges when a lookup source is active, so exactly one predicate
is still effective per run. -/
theorem c9_mode_conflict_amended :
    (∀ c : CmdConfig, c.pipeMode ≠ 0 → c.searchMode ≠ 0 → validateCmdline c = true) ∧
    (∀ (cfg : Cfg) (e : Nat) (st : XState) (lens : List Nat)
        (rlens : List (Nat × Nat)),
      cfg.hits.pipeMode ≠ 0 ∨ cfg.hits.searchMode ≠ 0 →
      extractStep
          { cfg with args := { cfg.args with seqLen := lens, rseqLen := rlens } } e st =
        extractStep cfg e st) := by
  constructor
  · intro c h1 h2
    simp [validateCmdline, h1, h2]
  · intro cfg e st lens rlens hmode
    obtain ⟨⟨sl, rl, sc, bl, ac, pm, sm⟩, hits, pc⟩ := cfg
    unfold extractStep
    dsimp only at hmode ⊢
    simp only [eq_true hmode, if_true]
    rfl

/-- Witness for C9 at concrete configurations. -/
theorem c9_mode_conflict_amended_witness :
    validateCmdline { qf := ['q'], ofile := ['o'], sf := ['s'], btable := ['t'],
                      pipeMode := 1, searchMode := 1, seqLen := [],
                      rseqLen := [] } = true ∧
    extractStep
        { args := { seqLen := [5], rseqLen := [], seqCnt := 9, bytesLimit := 9,
                    annotCnt := cIntMax, pipeMode := 1, searchMode := 0 },
          hits := { hitList := [['h']], pipeMode := 1, searchMode := 0 },
          procCnt := 1 } 5
        { region := (">h\nA\n").toList, fsq := 0, out := [], bytesWritten := 0,
          xCnt := 0, charVect := [0], done := false } =
      extractStep
        { args := { seqLen := [], rseqLen := [], seqCnt := 9, bytesLimit := 9,
                    annotCnt := cIntMax, pipeMode := 1, searchMode := 0 },
          hits := { hitList := [['h']], pipeMode := 1, searchMode := 0 },
          procCnt := 1 } 5
        { region := (">h\nA\n").toList, fsq := 0, out := [], bytesWritten := 0,
          xCnt := 0, charVect := [0], done := false } :=
  ⟨c9_mode_conflict_amended.1
      { qf := ['q'], ofile := ['o'], sf := ['s'], btable := ['t'], pipeMode := 1,
        searchMode := 1, seqLen := [], rseqLen := [] } (by decide) (by decide),
   c9_mode_conflict_amended.2
      { args := { seqLen := [], rseqLen := [], seqCnt := 9, bytesLimit := 9,
                  annotCnt := cIntMax, pipeMode := 1, searchMode := 0 },
        hits := { hitList := [['h']], pipeMode := 1, searchMode := 0 },
        procCnt := 1 } 5
      { region := (">h\nA\n").toList, fsq := 0, out := [], bytesWritten := 0,
        xCnt := 0, charVect := [0], done := false } [5] []
      (Or.inl (by decide))⟩

/-- A position returned by the backward scan holds a record-start byte and
lies below the scan origin. -/
theorem findGtBelow_spec (f : Nat → Char) :
    ∀ n k, findGtBelow f n = some k → f k = '>' ∧ k < n := by
  intro n
  induction n with
  | zero => intro k hk; simp [findGtBelow] at hk
  | succ n ih =>
    intro k
    by_cases h : f n = '>'
    · simp only [findGtBelow, if_pos h]
      rintro hk
      cases hk
      exact ⟨h, by omega⟩
    · simp only [findGtBelow, if_neg h]
      intro hk
      obtain ⟨h1, h2⟩ := ih k hk
      exact ⟨h1, by omega⟩

/-- Structure of a successful `setOffsQueryFile` plan built from `prevEnd`:
it has one entry per remaining partition, every entry starts exactly where
the previous one ended (the first at `prevEnd`), the lengths sum to
`S - prevEnd`, and every entry after the first starts at a byte the
backward scan certified as a record start. -/
theorem buildPlanAux_spec (f : Nat → Char) (S partSz P : Nat) :
    ∀ r, 1 ≤ r → ∀ prevEnd plan,
      buildPlanAux f S partSz P r prevEnd = some plan →
      plan.length = r ∧ planContig (prevEnd : Int) plan ∧
      planSum plan = (S : Int) - prevEnd ∧
      (∃ h t, plan = h :: t ∧ h.1 + h.2.1 = (prevEnd : Int)) ∧
      (∀ entry ∈ plan.tail,
        ∃ s : Nat, entry.1 + entry.2.1 = (s : Int) ∧ f s = '>') := by
  intro r
  induction r using Nat.strong_induction_on with
  | _ r ih =>
    match r with
    | 0 => intro h; omega
    | 1 =>
      intro _ prevEnd plan hp
      simp only [buildPlanAux, Option.some_inj] at hp
      subst hp
      refine ⟨rfl, ⟨by push_cast; ring, trivial⟩, ?_, ?_, ?_⟩
      · simp [planSum]
      · exact ⟨_, _, rfl, by push_cast; ring⟩
      · intro entry he
        simp at he
    | (r + 2) =>
      intro _ prevEnd plan hp
      simp only [buildPlanAux] at hp
      cases hg : findGtBelow f (P * (prevEnd / P) + partSz) with
      | none => rw [hg] at hp; exact absurd hp (by simp)
      | some pos =>
        rw [hg] at hp
        dsimp only at hp
        by_cases hz : (pos : Int) - (prevEnd : Int) = 0
        · rw [if_pos hz] at hp; exact absurd hp (by simp)
        · rw [if_neg hz] at hp
          cases hrest : buildPlanAux f S partSz P (r + 1) pos with
          | none => rw [hrest] at hp; exact absurd hp (by simp)
          | some rest =>
            rw [hrest] at hp
            simp only [Option.some_inj] at hp
            subst hp
            obtain ⟨hlen, hcontig, hsum, ⟨hh, ht, hrw, hstart⟩, htail⟩ :=
              ih (r + 1) (by omega) (by omega) pos rest hrest
            have hgt : f pos = '>' := (findGtBelow_spec f _ pos hg).1
            refine ⟨by simp [hlen], ?_, ?_, ?_, ?_⟩
            · refine ⟨by push_cast; ring, ?_⟩
              have heq : (prevEnd : Int) + ((pos : Int) - prevEnd) = (pos : Int) := by ring
              rw [heq]
              exact hcontig
            · simp only [planSum, List.map_cons, List.sum_cons] at hsum ⊢
              omega
            · exact ⟨_, _, rfl, by push_cast; ring⟩
            · intro entry he
              simp only [List.tail_cons] at he
              rw [hrw] at he
              rcases List.mem_cons.mp he with rfl | hmem
              · exact ⟨pos, hstart, hgt⟩
              · exact htail entry (by rw [hrw]; simpa using hmem)

/-- C6: for any file size, requested worker count and page size, the
partitioner (the `setOffs` retry loop around `setOffsQueryFile`) returns an
adjusted worker count in `[1, N]` and one `(page_offset, skew, length)`
triple per surviving worker, whose ranges are contiguous in byte order
starting at offset 0 and whose lengths sum to the file size. -/
theorem c6_partition_coverage (f : Nat → Char) (S P N : Nat)
    (_hS : 0 < S) (hN : 1 ≤ N) :
    1 ≤ (setOffsLoop f S P N).1 ∧ (setOffsLoop f S P N).1 ≤ N ∧
    (setOffsLoop f S P N).2.length = (setOffsLoop f S P N).1 ∧
    planContig 0 (setOffsLoop f S P N).2 ∧
    planSum (setOffsLoop f S P N).2 = (S : Int) := by
  have main : ∀ N, 1 ≤ N →
      1 ≤ (setOffsLoop f S P N).1 ∧ (setOffsLoop f S P N).1 ≤ N ∧
      (setOffsLoop f S P N).2.length = (setOffsLoop f S P N).1 ∧
      planContig 0 (setOffsLoop f S P N).2 ∧
      planSum (setOffsLoop f S P N).2 = (S : Int) := by
    intro N
    induction N using Nat.strong_induction_on with
    | _ N ih =>
      match N with
      | 0 => intro h; omega
      | 1 =>
        intro _
        refine ⟨by simp [setOffsLoop], by simp [setOffsLoop], by simp [setOffsLoop],
          ⟨by simp, trivial⟩, by simp [setOffsLoop, planSum]⟩
      | (n + 2) =>
        intro _
        cases hq : setOffsQueryFile f S P (n + 2) with
        | some plan =>
          have hfacts := buildPlanAux_spec f S (P * (cdiv S (n + 2) / P)) P (n + 2)
            (by omega) 0 plan hq
          simp only [setOffsLoop, hq]
          refine ⟨by omega, by omega, hfacts.1, ?_, ?_⟩
          · have := hfacts.2.1
            simpa using this
          · have := hfacts.2.2.1
            simpa using this
        | none =>
          have hrec := ih (n + 1) (by omega) (by omega)
          simp only [setOffsLoop, hq]
          exact ⟨hrec.1, by omega, hrec.2.2.1, hrec.2.2.2.1, hrec.2.2.2.2⟩
  exact main N hN

/-- Witness for C6 at a concrete file model. -/
theorem c6_partition_coverage_witness :
    (0 : Nat) < 16 ∧ (1 : Nat) ≤ 2 ∧
    (1 ≤ (setOffsLoop (fun k => if k = 6 then '>' else '\n') 16 2 2).1 ∧
     (setOffsLoop (fun k => if k = 6 then '>' else '\n') 16 2 2).1 ≤ 2 ∧
     (setOffsLoop (fun k => if k = 6 then '>' else '\n') 16 2 2).2.length =
       (setOffsLoop (fun k => if k = 6 then '>' else '\n') 16 2 2).1 ∧
     planContig 0 (setOffsLoop (fun k => if k = 6 then '>' else '\n') 16 2 2).2 ∧
     planSum (setOffsLoop (fun k => if k = 6 then '>' else '\n') 16 2 2).2 = (16 : Int)) :=
  ⟨by omega, by omega,
   c6_partition_coverage (fun k => if k = 6 then '>' else '\n') 16 2 2
     (by omega) (by omega)⟩

/-- C7: over a well-formed FASTA model (every `>` lies inside the file and
is preceded by a newline or the file start), every partition entry after the
first begins (`page_offset + skew`) at a `>` that starts a record, and the
plan is contiguous, so every range but the last ends at the byte
immediately preceding such a `>`. -/
theorem c7_record_alignment (f : Nat → Char) (S P N : Nat) (hN : 1 ≤ N)
    (hwf : ∀ k, f k = '>' → k < S ∧ (k = 0 ∨ f (k - 1) = '\n')) :
    planContig 0 (setOffsLoop f S P N).2 ∧
    ∀ entry ∈ (setOffsLoop f S P N).2.tail,
      ∃ s : Nat, entry.1 + entry.2.1 = (s : Int) ∧ s < S ∧ f s = '>' ∧
        (s = 0 ∨ f (s - 1) = '\n') := by
  have main : ∀ N, 1 ≤ N →
      planContig 0 (setOffsLoop f S P N).2 ∧
      ∀ entry ∈ (setOffsLoop f S P N).2.tail,
        ∃ s : Nat, entry.1 + entry.2.1 = (s : Int) ∧ f s = '>' := by
    intro N
    induction N using Nat.strong_induction_on with
    | _ N ih =>
      match N with
      | 0 => intro h; omega
      | 1 =>
        intro _
        refine ⟨⟨by simp, trivial⟩, ?_⟩
        intro entry he
        simp [setOffsLoop] at he
      | (n + 2) =>
        intro _
        cases hq : setOffsQueryFile f S P (n + 2) with
        | some plan =>
          have hfacts := buildPlanAux_spec f S (P * (cdiv S (n + 2) / P)) P (n + 2)
            (by omega) 0 plan hq
          simp only [setOffsLoop, hq]
          exact ⟨by simpa using hfacts.2.1, hfacts.2.2.2.2⟩
        | none =>
          have hrec := ih (n + 1) (by omega) (by omega)
          simp only [setOffsLoop, hq]
          exact hrec
  obtain ⟨hc, ht⟩ := main N hN
  refine ⟨hc, ?_⟩
  intro entry he
  obtain ⟨s, hs, hgt⟩ := ht entry he
  obtain ⟨hlt, hpre⟩ := hwf s hgt
  exact ⟨s, hs, hlt, hgt, hpre⟩

/-- Witness for C7 at a concrete well-formed file model. -/
theorem c7_record_alignment_witness :
    (1 : Nat) ≤ 2 ∧
    (planContig 0 (setOffsLoop (fun k => if k = 6 then '>' else '\n') 16 2 2).2 ∧
     ∀ entry ∈ (setOffsLoop (fun k => if k = 6 then '>' else '\n') 16 2 2).2.tail,
       ∃ s : Nat, entry.1 + entry.2.1 = (s : Int) ∧ s < 16 ∧
         (fun k => if k = 6 then '>' else '\n') s = '>' ∧
         (s = 0 ∨ (fun k => if k = 6 then '>' else '\n') (s - 1) = '\n')) :=
  ⟨by omega,
   c7_record_alignment (fun k => if k = 6 then '>' else '\n') 16 2 2 (by omega)
     (by
       intro k hk
       by_cases h6 : k = 6
       · subst h6
         exact ⟨by omega, Or.inr (by decide)⟩
       · dsimp only at hk
         rw [if_neg h6] at hk
         exact absurd hk (by decide))⟩

/-- C8: the scan-window loop of `partQueryFile` is claimed to produce
identical output bytes for any two window sizes.  On the 12-byte file
`>a(nl)AA(nl)>b(nl)CC(nl)` the run with window size 8 emits only the first
record and aborts (`adjustMapBegin` finds no `>` in the final window, which
holds only the tail of the straddling second record), while the run with
window size 16 emits both records: the output depends on the window size
and the second record is silently lost. -/
theorem c8_window_size_dependence :
    (partQueryFileRun
      { args := { seqLen := [], rseqLen := [], seqCnt := 1000, bytesLimit := 1000,
                  annotCnt := cIntMax, pipeMode := 0, searchMode := 0 },
        hits := { hitList := [], pipeMode := 0, searchMode := 0 }, procCnt := 1 }
      (">a\nAA\n>b\nCC\n").toList 8 []).out = (">a\nAA\n").toList ∧
    (partQueryFileRun
      { args := { seqLen := [], rseqLen := [], seqCnt := 1000, bytesLimit := 1000,
                  annotCnt := cIntMax, pipeMode := 0, searchMode := 0 },
        hits := { hitList := [], pipeMode := 0, searchMode := 0 }, procCnt := 1 }
      (">a\nAA\n>b\nCC\n").toList 8 []).err = true ∧
    (partQueryFileRun
      { args := { seqLen := [], rseqLen := [], seqCnt := 1000, bytesLimit := 1000,
                  annotCnt := cIntMax, pipeMode := 0, searchMode := 0 },
        hits := { hitList := [], pipeMode := 0, searchMode := 0 }, procCnt := 1 }
      (">a\nAA\n>b\nCC\n").toList 16 []).out = (">a\nAA\n>b\nCC\n").toList ∧
    (partQueryFileRun
      { args := { seqLen := [], rseqLen := [], seqCnt := 1000, bytesLimit := 1000,
                  annotCnt := cIntMax, pipeMode := 0, searchMode := 0 },
        hits := { hitList := [], pipeMode := 0, searchMode := 0 }, procCnt := 1 }
      (">a\nAA\n>b\nCC\n").toList 16 []).err = false := by
  decide

end FilterFasta
